import Mathlib

/-!
Verification development for the single-file scraper
src/apm_models_scraper_enhanced.py.

The pure logic of the program is embedded shallowly: character classes
and the slug derivation, the regular-expression based division and id
extraction, URL path extraction, image extension inference, the image
download loop (with the network download outcome supplied as a boolean
oracle), the index entry extractors, URL deduplication, record
validation, and the per-item processing pipeline (with the effectful
stages supplied as oracles).  Machine integers do not occur in the
source, so Nat and Int are used directly.

Character-level functions model the ASCII fragment of the Python
semantics: the regular expression classes backslash-w and backslash-s
and str.lower are embedded on ASCII code points, which is the character
repertoire the scraped site and all claims exercise.
-/

/-- ASCII fragment of the Python regex class backslash-w used in
slugify_name (line 77): letters, digits and underscore. -/
def isPyWordChar (c : Char) : Bool :=
  decide ((65 ≤ c.toNat ∧ c.toNat ≤ 90) ∨ (97 ≤ c.toNat ∧ c.toNat ≤ 122) ∨
    (48 ≤ c.toNat ∧ c.toNat ≤ 57) ∨ c.toNat = 95)

/-- ASCII fragment of the Python regex class backslash-s: space, tab,
newline, vertical tab, form feed, carriage return. -/
def isPySpaceChar (c : Char) : Bool :=
  decide (c.toNat = 32 ∨ c.toNat = 9 ∨ c.toNat = 10 ∨ c.toNat = 11 ∨
    c.toNat = 12 ∨ c.toNat = 13)

/-- ASCII str.lower on a single character, as applied by name.lower()
in slugify_name (line 77). -/
def pyToLower (c : Char) : Char :=
  if 65 ≤ c.toNat ∧ c.toNat ≤ 90 then Char.ofNat (c.toNat + 32) else c

/-- A slug-safe character: lowercase ASCII letter, digit, or underscore. -/
def isSlugChar (c : Char) : Bool :=
  decide ((97 ≤ c.toNat ∧ c.toNat ≤ 122) ∨ (48 ≤ c.toNat ∧ c.toNat ≤ 57) ∨
    c.toNat = 95)

/-- ASCII alphanumeric character. -/
def isAsciiAlnumChar (c : Char) : Bool :=
  decide ((65 ≤ c.toNat ∧ c.toNat ≤ 90) ∨ (97 ≤ c.toNat ∧ c.toNat ≤ 122) ∨
    (48 ≤ c.toNat ∧ c.toNat ≤ 57))

/-- ASCII digit. -/
def isDigitChar (c : Char) : Bool :=
  decide (48 ≤ c.toNat ∧ c.toNat ≤ 57)

/-- ASCII letter. -/
def isAsciiLetterChar (c : Char) : Bool :=
  decide ((65 ≤ c.toNat ∧ c.toNat ≤ 90) ∨ (97 ≤ c.toNat ∧ c.toNat ≤ 122))

/-- Separator character for the second substitution in slugify_name
(line 79): the regex class of hyphen or whitespace. -/
def isSepChar (c : Char) : Bool :=
  isPySpaceChar c || c = '-'

/-- Python str.strip with no argument on the ASCII fragment: remove
leading and trailing whitespace, as applied to attribute values and
hrefs. -/
def pyStrip (s : String) : String :=
  String.mk (((s.data.dropWhile isPySpaceChar).reverse.dropWhile isPySpaceChar).reverse)

/-- Python str.startswith, on character lists. -/
def pyStartsWith (pre s : String) : Bool :=
  pre.data.isPrefixOf s.data

/-- Characters kept by the first substitution in slugify_name
(line 77): the substitution deletes everything outside word characters,
whitespace and hyphen. -/
def slugKeepChar (c : Char) : Bool :=
  isPyWordChar c || isPySpaceChar c || c = '-'

/-- Replace each maximal run of separator characters by a single
underscore, embedding the substitution of the regex
(hyphen-or-whitespace)+ by underscore in slugify_name (line 79).  The
boolean flag records whether the previous character was a separator. -/
def slugCollapse : Bool → List Char → List Char
  | _, [] => []
  | inRun, c :: rest =>
    if isSepChar c then
      if inRun then slugCollapse true rest
      else '_' :: slugCollapse true rest
    else c :: slugCollapse false rest

/-- Python strip applied with the single character underscore
(line 81): remove leading and trailing underscores. -/
def pyStripUnderscore (l : List Char) : List Char :=
  ((l.dropWhile (fun c => c == '_')).reverse.dropWhile (fun c => c == '_')).reverse

/-- ModelRecord.slugify_name (lines 73-82): lowercase the name, delete
characters outside word characters, whitespace and hyphen, collapse
runs of whitespace and hyphens to single underscores, and strip
leading and trailing underscores. -/
def slugify_name (name : String) : String :=
  String.mk (pyStripUnderscore (slugCollapse false
    ((name.data.map pyToLower).filter slugKeepChar)))

/-- Substring containment on character sequences, embedding the Python
operator in on strings and the searching behavior of re.search. -/
def containsSeq (pat : List Char) : List Char → Bool
  | [] => pat.isEmpty
  | l@(_ :: rest) => pat.isPrefixOf l || containsSeq pat rest

/-- Scan suffixes of the input from the left and return the first
answer produced by the matcher, embedding the leftmost-match rule of
re.search. -/
def scanFirst (f : List Char → Option String) : List Char → Option String
  | [] => none
  | l@(_ :: rest) =>
    match f l with
    | some d => some d
    | none => scanFirst f rest

/-- Anchored test for the first division pattern of
_extract_division_from_url (line 435): slash models slash division
slash.  The alternation tries ima, mai, dev in order. -/
def matchP1 (s : List Char) : Option String :=
  if ("/models/ima/".data).isPrefixOf s then some "ima"
  else if ("/models/mai/".data).isPrefixOf s then some "mai"
  else if ("/models/dev/".data).isPrefixOf s then some "dev"
  else none

/-- Test whether the list starts with a digit. -/
def headIsDigit (s : List Char) : Bool :=
  match s with
  | [] => false
  | c :: _ => isDigitChar c

/-- Anchored test for the second division pattern (line 436): slash
division hyphen followed by at least one digit. -/
def matchP2 (s : List Char) : Option String :=
  if ("/ima-".data).isPrefixOf s && headIsDigit (s.drop 5) then some "ima"
  else if ("/mai-".data).isPrefixOf s && headIsDigit (s.drop 5) then some "mai"
  else if ("/dev-".data).isPrefixOf s && headIsDigit (s.drop 5) then some "dev"
  else none

/-- Anchored test for the third division pattern (line 437): slash
division slash. -/
def matchP3 (s : List Char) : Option String :=
  if ("/ima/".data).isPrefixOf s then some "ima"
  else if ("/mai/".data).isPrefixOf s then some "mai"
  else if ("/dev/".data).isPrefixOf s then some "dev"
  else none

/-- _extract_division_from_url (lines 429-448): try the three
patterns in order over the whole URL, first match wins, returning the
matched division, or unknown when no pattern matches anywhere. -/
def extract_division_from_url (url : String) : String :=
  match scanFirst matchP1 url.data with
  | some d => d
  | none =>
    match scanFirst matchP2 url.data with
    | some d => d
    | none =>
      match scanFirst matchP3 url.data with
      | some d => d
      | none => "unknown"

/-- Anchored test for the model id pattern slash division hyphen
digits hyphen used at lines 392 and 483, returning the digit group.
The greedy digit group succeeds exactly when the maximal digit run is
followed by a hyphen. -/
def matchIdAt (s : List Char) : Option String :=
  if ("/ima-".data).isPrefixOf s || ("/mai-".data).isPrefixOf s ||
      ("/dev-".data).isPrefixOf s then
    let digits := (s.drop 5).takeWhile isDigitChar
    if digits.isEmpty then none
    else
      match s.drop (5 + digits.length) with
      | c :: _ => if c = '-' then some (String.mk digits) else none
      | [] => none
  else none

/-- Search for the model id pattern anywhere in the URL (re.search of
the pattern at lines 392 and 483), leftmost match. -/
def findModelId (s : List Char) : Option String :=
  scanFirst matchIdAt s

/-- Characters admitted in a URL scheme by urllib: letters, digits,
plus, hyphen, dot. -/
def isSchemeChar (c : Char) : Bool :=
  isAsciiAlnumChar c || c = '+' || c = '-' || c = '.'

/-- Test whether a candidate scheme prefix is a valid scheme: nonempty,
starts with a letter, all characters scheme characters. -/
def validScheme (pre : List Char) : Bool :=
  match pre with
  | [] => false
  | c :: _ => isAsciiLetterChar c && pre.all isSchemeChar

/-- Remove a leading scheme and its colon when present, as
urllib.parse does. -/
def splitScheme (u : List Char) : List Char :=
  let pre := u.takeWhile (fun c => c != ':')
  if decide (pre.length < u.length) && validScheme pre then u.drop (pre.length + 1)
  else u

/-- Path component of a URL as computed by urllib.parse.urlparse (an
external library from the point of view of the source): strip the
fragment, remove scheme and network location, strip the query.  The
params split at semicolon performed by urlparse is not modelled; no
claim involves semicolons. -/
def urlPath (url : List Char) : List Char :=
  let u1 := url.takeWhile (fun c => c != '#')
  let u2 := splitScheme u1
  let u3 :=
    if (['/', '/']).isPrefixOf u2 then
      (u2.drop 2).dropWhile (fun c => c != '/' && c != '?')
    else u2
  u3.takeWhile (fun c => c != '?')

/-- The fixed extension list of _get_image_extension (line 776), in
source order. -/
def knownImageExts : List String :=
  [".jpg", ".jpeg", ".png", ".gif", ".webp"]

/-- The loop of _get_image_extension: return the first extension of
the list contained in the path as a substring. -/
def firstContainedExt : List String → List Char → Option String
  | [], _ => none
  | e :: rest, path =>
    if containsSeq e.data path then some e else firstContainedExt rest path

/-- _get_image_extension (lines 770-781): lowercase the URL path and
return the first known extension occurring in it as a substring,
defaulting to dot jpg. -/
def get_image_extension (url : String) : String :=
  let path := (urlPath url.data).map pyToLower
  match firstContainedExt knownImageExts path with
  | some e => e
  | none => ".jpg"

/-- Python list slicing with an upper bound only, list take k, where a
negative bound counts from the end, embedding the slice at line 715. -/
def pyTake (k : Int) (l : List String) : List String :=
  if 0 ≤ k then l.take k.toNat else l.take (l.length - (-k).toNat)

/-- Outcome of the image download stage for one item: the downloaded
file names in order, and the increments applied to the two image
counters of the statistics. -/
structure DownloadOutcome where
  files : List String
  imagesDownloaded : Nat
  imagesFailed : Nat
deriving DecidableEq

/-- The gallery loop of download_model_images (lines 720-737):
enumerate the capped gallery URLs from one, name each file portfolio
followed by the index and the inferred extension, record it when the
download succeeds, and count successes and failures.  The download
result is supplied by the oracle dlOk standing for _download_image. -/
def downloadGallery (dlOk : String → Bool) : List String → Nat → DownloadOutcome
  | [], _ => ⟨[], 0, 0⟩
  | u :: rest, i =>
    let r := downloadGallery dlOk rest (i + 1)
    if dlOk u then
      ⟨("portfolio" ++ toString i ++ get_image_extension u) :: r.files,
        r.imagesDownloaded + 1, r.imagesFailed⟩
    else ⟨r.files, r.imagesDownloaded, r.imagesFailed + 1⟩

/-- download_model_images (lines 677-747), with the filesystem and
network effects abstracted: when a thumbnail URL is present it is
downloaded first under the name thumbnail with the inferred extension,
then the gallery list capped at the configured maximum minus one is
downloaded with portfolio naming.  Failed downloads are counted and
produce no file name. -/
def download_model_images (maxImagesPerModel : Int) (dlOk : String → Bool)
    (thumbnail : String) (gallery : List String) : DownloadOutcome :=
  let thumbFiles : List String :=
    if thumbnail != "" && dlOk thumbnail then
      ["thumbnail" ++ get_image_extension thumbnail]
    else []
  let thumbDl : Nat := if thumbnail != "" && dlOk thumbnail then 1 else 0
  let thumbFl : Nat := if thumbnail != "" && !dlOk thumbnail then 1 else 0
  let limited := pyTake (maxImagesPerModel - 1) gallery
  let g := downloadGallery dlOk limited 1
  ⟨thumbFiles ++ g.files, thumbDl + g.imagesDownloaded, thumbFl + g.imagesFailed⟩

/-- An image element as seen by the extractors: the src and alt
attributes, with absent attributes read as the empty string. -/
structure ImgTag where
  src : String
  alt : String
deriving DecidableEq

/-- The first anchor element of an entry: stripped text content and
href attribute. -/
structure LinkTag where
  text : String
  href : String
deriving DecidableEq

/-- A list entry element of the alphabet index: optional first anchor,
the data-id and data-divisions attributes, optional first image. -/
structure EntryTag where
  link : Option LinkTag
  dataId : String
  dataDivisions : String
  img : Option ImgTag
deriving DecidableEq

/-- The dictionary produced by the index extractors (lines 409-419 and
493-503). -/
structure ModelDict where
  model_id : String
  name : String
  division : String
  profile_url : String
  thumbnail : String
  thumbnail_alt : String
  divisions_meta : String
  letter_group : Option String
  slug : String
deriving DecidableEq

/-- Make a URL absolute exactly as the extractors do: keep it when it
starts with http, otherwise resolve it against the base URL; urljoin
is an external library function supplied as the resolver. -/
def absolutize (resolve : String → String) (u : String) : String :=
  if pyStartsWith "http" u then u else resolve u

/-- _extract_model_from_entry (lines 363-425): require an anchor with
nonempty stripped text and nonempty stripped href, absolutize the URL,
derive division, model id (data-id attribute first, else the URL
pattern), thumbnail and alt from the first image, and the slug from
the name. -/
def extract_model_from_entry (resolve : String → String) (entry : EntryTag)
    (letter : Option String) : Option ModelDict :=
  match entry.link with
  | none => none
  | some link =>
    if link.text = "" then none
    else
      let href := pyStrip link.href
      if href = "" then none
      else
        let profile_url := absolutize resolve href
        let division := extract_division_from_url profile_url
        let model_id :=
          if entry.dataId = "" then
            match findModelId profile_url.data with
            | some i => i
            | none => ""
          else entry.dataId
        let thumbnail :=
          match entry.img with
          | none => ""
          | some img => if img.src = "" then "" else absolutize resolve img.src
        let thumbnail_alt :=
          match entry.img with
          | none => ""
          | some img => img.alt
        some ⟨model_id, link.text, division, profile_url, thumbnail,
          thumbnail_alt, entry.dataDivisions, letter, slugify_name link.text⟩

/-- A generic link element for the fallback extractor: stripped text,
href, optional first image. -/
structure LinkElem where
  text : String
  href : String
  img : Option ImgTag
deriving DecidableEq

/-- _extract_model_from_link (lines 450-509): the name is the stripped
image alt text when an image with truthy alt is present, else the link
text; requires a nonempty name and href; rejects URLs containing none
of the three division tokens as substrings; model id comes from the
URL pattern only; letter group and divisions metadata are empty. -/
def extract_model_from_link (resolve : String → String) (e : LinkElem) :
    Option ModelDict :=
  let model_name :=
    match e.img with
    | some img => if img.alt != "" then pyStrip img.alt else e.text
    | none => e.text
  if model_name = "" then none
  else
    let href := pyStrip e.href
    if href = "" then none
    else
      let profile_url := absolutize resolve href
      if !(containsSeq "ima".data profile_url.data ||
          containsSeq "mai".data profile_url.data ||
          containsSeq "dev".data profile_url.data) then none
      else
        let division := extract_division_from_url profile_url
        let model_id :=
          match findModelId profile_url.data with
          | some i => i
          | none => ""
        let thumbnail :=
          match e.img with
          | none => ""
          | some img => if img.src = "" then "" else absolutize resolve img.src
        some ⟨model_id, model_name, division, profile_url, thumbnail,
          "", "", some "", slugify_name model_name⟩

/-- The deduplication loop of scrape_alphabet_index (lines 345-353):
keep an entry when its profile URL has not been seen, recording seen
URLs. -/
def dedupModelsAux (seen : List String) : List ModelDict → List ModelDict
  | [] => []
  | m :: rest =>
    if seen.contains m.profile_url then dedupModelsAux seen rest
    else m :: dedupModelsAux (m.profile_url :: seen) rest

/-- Deduplicate extracted models by profile URL, first seen kept,
order preserved (lines 345-353). -/
def dedupModels (models : List ModelDict) : List ModelDict :=
  dedupModelsAux [] models

/-- The configuration subset read by validate_model_data: the
validation section and the expected attribute list (lines 146-150). -/
structure ValidationConfig where
  required_divisions : List String
  min_images_per_model : Nat
  expected_attributes : List String
deriving DecidableEq

/-- The model data dictionary at the validation and persistence
stages: the fields read by validate_model_data and
save_model_metadata. -/
structure ModelData where
  model_id : String
  name : String
  division : String
  profile_url : String
  thumbnail : String
  attributes : List (String × String)
  images : List String
deriving DecidableEq

/-- validate_model_data (lines 783-820): reject when any of model_id,
name, division, profile_url is empty, when the division is not in the
configured division list, or when the image list is shorter than the
configured minimum; the expected attribute check at lines 813-818 only
logs and never affects the result. -/
def validate_model_data (cfg : ValidationConfig) (m : ModelData) : Bool :=
  if m.model_id = "" then false
  else if m.name = "" then false
  else if m.division = "" then false
  else if m.profile_url = "" then false
  else if !(cfg.required_divisions.contains m.division) then false
  else if m.images.length < cfg.min_images_per_model then false
  else true

/-- The statistics dictionary initialized at lines 108-114. -/
structure Stats where
  models_found : Nat
  models_processed : Nat
  models_failed : Nat
  images_downloaded : Nat
  images_failed : Nat
deriving DecidableEq

/-- Run state threaded through the pipeline: the statistics counters
and the contents of the append-only models.jsonl log. -/
structure RunState where
  stats : Stats
  log : List ModelData
deriving DecidableEq

/-- Apply image counter increments to the statistics. -/
def addImageStats (st : Stats) (dl fl : Nat) : Stats :=
  { st with
    images_downloaded := st.images_downloaded + dl,
    images_failed := st.images_failed + fl }

/-- process_single_model (lines 855-885), with the three effectful
stages supplied as oracles: scrape models the observable outcome of
scrape_model_profile (a returned dictionary, or an exception reaching
the handler at line 882); download models download_model_images (a
returned dictionary plus image counter increments, or an exception,
carrying the increments applied before it was raised); saveOk models
the boolean result of save_model_metadata, which appends one record to
the log exactly when it returns true.  An exception or a validation or
save failure increments models_failed and yields no result; otherwise
models_processed is incremented and the record is appended. -/
def process_single_model (cfg : ValidationConfig)
    (scrape : ModelData → Except Unit ModelData)
    (download : ModelData → Except (Nat × Nat) (ModelData × Nat × Nat))
    (saveOk : ModelData → Bool)
    (s : RunState) (m : ModelData) : Option ModelData × RunState :=
  match scrape m with
  | .error _ =>
    let sFail : RunState :=
      { s with stats := { s.stats with models_failed := s.stats.models_failed + 1 } }
    (none, sFail)
  | .ok m2 =>
    match download m2 with
    | .error d =>
      let sFail : RunState :=
        { s with stats :=
          { addImageStats s.stats d.1 d.2 with models_failed := s.stats.models_failed + 1 } }
      (none, sFail)
    | .ok (m3, dl, fl) =>
      let st := addImageStats s.stats dl fl
      if validate_model_data cfg m3 then
        if saveOk m3 then
          let sOk : RunState :=
            { stats := { st with models_processed := st.models_processed + 1 },
              log := s.log ++ [m3] }
          (some m3, sOk)
        else
          let sFail : RunState :=
            { stats := { st with models_failed := st.models_failed + 1 }, log := s.log }
          (none, sFail)
      else
        let sFail : RunState :=
          { stats := { st with models_failed := st.models_failed + 1 }, log := s.log }
        (none, sFail)

/-- run_parallel_processing (lines 887-921): process the items one at
a time in order (the function is sequential by explicit design
comment), collecting the successfully processed items; failures only
update the counters and never abort the loop. -/
def run_parallel_processing (cfg : ValidationConfig)
    (scrape : ModelData → Except Unit ModelData)
    (download : ModelData → Except (Nat × Nat) (ModelData × Nat × Nat))
    (saveOk : ModelData → Bool)
    (s : RunState) : List ModelData → List ModelData × RunState
  | [] => ([], s)
  | m :: rest =>
    let r := process_single_model cfg scrape download saveOk s m
    let restR := run_parallel_processing cfg scrape download saveOk r.2 rest
    (match r.1 with
     | some x => x :: restR.1
     | none => restR.1, restR.2)

/-- An item succeeds end to end: the scrape and download oracles
return normally, validation passes, and the save succeeds. -/
def itemSucceeds (cfg : ValidationConfig)
    (scrape : ModelData → Except Unit ModelData)
    (download : ModelData → Except (Nat × Nat) (ModelData × Nat × Nat))
    (saveOk : ModelData → Bool) (m : ModelData) : Bool :=
  match scrape m with
  | .error _ => false
  | .ok m2 =>
    match download m2 with
    | .error _ => false
    | .ok (m3, _, _) => validate_model_data cfg m3 && saveOk m3

theorem char_ofNat_toNat (n : Nat) (h : n.isValidChar) : (Char.ofNat n).toNat = n := by
  simp [Char.ofNat, h, Char.toNat, Char.ofNatAux, UInt32.toNat, UInt32.ofNatCore]

theorem pyToLower_toNat (c : Char) :
    (pyToLower c).toNat = if 65 ≤ c.toNat ∧ c.toNat ≤ 90 then c.toNat + 32 else c.toNat := by
  by_cases h : 65 ≤ c.toNat ∧ c.toNat ≤ 90
  · rw [pyToLower, if_pos h, if_pos h]
    exact char_ofNat_toNat _ (Or.inl (by omega))
  · rw [pyToLower, if_neg h, if_neg h]

theorem lower_word_is_slug (x : Char) (h : isPyWordChar (pyToLower x) = true) :
    isSlugChar (pyToLower x) = true := by
  have hn := pyToLower_toNat x
  unfold isPyWordChar at h
  unfold isSlugChar
  simp only [decide_eq_true_eq] at h ⊢
  by_cases hc : 65 ≤ x.toNat ∧ x.toNat ≤ 90
  · rw [if_pos hc] at hn
    omega
  · rw [if_neg hc] at hn
    omega

theorem mem_slugCollapse {c : Char} : ∀ {b : Bool} {l : List Char}, c ∈ slugCollapse b l →
    c = '_' ∨ (c ∈ l ∧ isSepChar c = false) := by
  intro b l
  induction l generalizing b with
  | nil => intro h; simp [slugCollapse] at h
  | cons hd tl ih =>
    intro h
    rw [slugCollapse] at h
    by_cases hs : isSepChar hd
    · rw [if_pos hs] at h
      by_cases hb : b = true
      · rw [if_pos hb] at h
        rcases ih h with h1 | ⟨h2, h3⟩
        · exact Or.inl h1
        · exact Or.inr ⟨List.mem_cons_of_mem _ h2, h3⟩
      · rw [if_neg hb] at h
        rcases List.mem_cons.mp h with rfl | h
        · exact Or.inl rfl
        · rcases ih h with h1 | ⟨h2, h3⟩
          · exact Or.inl h1
          · exact Or.inr ⟨List.mem_cons_of_mem _ h2, h3⟩
    · rw [if_neg hs] at h
      rcases List.mem_cons.mp h with rfl | h
      · exact Or.inr ⟨List.mem_cons_self _ _, by simpa using hs⟩
      · rcases ih h with h1 | ⟨h2, h3⟩
        · exact Or.inl h1
        · exact Or.inr ⟨List.mem_cons_of_mem _ h2, h3⟩

theorem mem_pyStripUnderscore {l : List Char} {c : Char} (h : c ∈ pyStripUnderscore l) :
    c ∈ l := by
  unfold pyStripUnderscore at h
  rw [List.mem_reverse] at h
  have h2 := (List.dropWhile_sublist _).mem h
  rw [List.mem_reverse] at h2
  exact (List.dropWhile_sublist _).mem h2

theorem slugify_chars (name : String) : (slugify_name name).data.all isSlugChar = true := by
  rw [List.all_eq_true]
  intro c hc
  have hc2 : c ∈ pyStripUnderscore (slugCollapse false
      ((name.data.map pyToLower).filter slugKeepChar)) := by
    simpa [slugify_name] using hc
  have hc3 := mem_pyStripUnderscore hc2
  rcases mem_slugCollapse hc3 with rfl | ⟨h4, h5⟩
  · decide
  · rw [List.mem_filter] at h4
    obtain ⟨hmem, hkeep⟩ := h4
    rw [List.mem_map] at hmem
    obtain ⟨x, _, rfl⟩ := hmem
    apply lower_word_is_slug
    unfold slugKeepChar at hkeep
    unfold isSepChar at h5
    rcases Bool.or_eq_true _ _ |>.mp hkeep with h | h
    · rcases Bool.or_eq_true _ _ |>.mp h with h | h
      · exact h
      · simp [h] at h5
    · simp [h] at h5

theorem mem_dropWhile_of_notp {p : Char → Bool} : ∀ {l : List Char} {c : Char},
    c ∈ l → p c = false → c ∈ l.dropWhile p
  | hd :: tl, c, h, hp => by
    rw [List.dropWhile]
    by_cases hh : p hd = true
    · rw [hh]
      rcases List.mem_cons.mp h with rfl | h2
      · rw [hp] at hh; cases hh
      · exact mem_dropWhile_of_notp h2 hp
    · rw [Bool.not_eq_true] at hh
      rw [hh]
      exact h

theorem mem_pyStripUnderscore_of {l : List Char} {c : Char} (h : c ∈ l)
    (hne : (c == '_') = false) : c ∈ pyStripUnderscore l := by
  unfold pyStripUnderscore
  rw [List.mem_reverse]
  exact mem_dropWhile_of_notp (List.mem_reverse.mpr (mem_dropWhile_of_notp h hne)) hne

theorem mem_slugCollapse_of {c : Char} (hns : isSepChar c = false) :
    ∀ {l : List Char} (b : Bool), c ∈ l → c ∈ slugCollapse b l
  | hd :: tl, b, h => by
    rw [slugCollapse]
    by_cases hs : isSepChar hd
    · rw [if_pos hs]
      have h2 : c ∈ tl := by
        rcases List.mem_cons.mp h with rfl | h2
        · rw [hns] at hs; cases hs
        · exact h2
      by_cases hb : b = true
      · rw [if_pos hb]
        exact mem_slugCollapse_of hns true h2
      · rw [if_neg hb]
        exact List.mem_cons_of_mem _ (mem_slugCollapse_of hns true h2)
    · rw [if_neg hs]
      rcases List.mem_cons.mp h with rfl | h2
      · exact List.mem_cons_self _ _
      · exact List.mem_cons_of_mem _ (mem_slugCollapse_of hns false h2)

theorem slugify_ne_empty_of_alnum {name : String}
    (h : name.data.any isAsciiAlnumChar = true) : slugify_name name ≠ "" := by
  rw [List.any_eq_true] at h
  obtain ⟨c, hc, hal⟩ := h
  have halval : (65 ≤ c.toNat ∧ c.toNat ≤ 90) ∨ (97 ≤ c.toNat ∧ c.toNat ≤ 122) ∨
      (48 ≤ c.toNat ∧ c.toNat ≤ 57) := by
    simpa [isAsciiAlnumChar] using hal
  have hlow := pyToLower_toNat c
  have hlowval : (97 ≤ (pyToLower c).toNat ∧ (pyToLower c).toNat ≤ 122) ∨
      (48 ≤ (pyToLower c).toNat ∧ (pyToLower c).toNat ≤ 57) := by
    by_cases hc90 : 65 ≤ c.toNat ∧ c.toNat ≤ 90
    · rw [if_pos hc90] at hlow; omega
    · rw [if_neg hc90] at hlow; omega
  have hkeep : slugKeepChar (pyToLower c) = true := by
    simp only [slugKeepChar, isPyWordChar, Bool.or_eq_true, decide_eq_true_eq]
    left; left; omega
  have hmem1 : pyToLower c ∈ (name.data.map pyToLower).filter slugKeepChar :=
    List.mem_filter.mpr ⟨List.mem_map.mpr ⟨c, hc, rfl⟩, hkeep⟩
  have hns : isSepChar (pyToLower c) = false := by
    simp only [isSepChar, isPySpaceChar, Bool.or_eq_false_iff, decide_eq_false_iff_not]
    constructor
    · omega
    · intro heq
      have h45 : (pyToLower c).toNat = 45 := by rw [heq]; decide
      omega
  have hmem2 := mem_slugCollapse_of hns false hmem1
  have hnu : ((pyToLower c) == '_') = false := by
    have h95 : (pyToLower c).toNat ≠ 95 := by omega
    simp only [beq_eq_false_iff_ne, ne_eq]
    intro heq
    exact h95 (by rw [heq]; decide)
  have hmem3 := mem_pyStripUnderscore_of hmem2 hnu
  intro hconj
  have : (slugify_name name).data = [] := by rw [hconj]
  rw [slugify_name] at this
  simp only [String.data] at this
  rw [this] at hmem3
  cases hmem3

/-- C3: slug derivation is a pure deterministic function of the name
(purity is definitional in the embedding and stated as congruence), the
result contains only lowercase letters, digits and underscore, and the
example name Jane D-apostrophe-Oe-Smith maps to jane_doe_smith. -/
theorem claim_C3_slug_deterministic_safe :
    (∀ n1 n2 : String, n1 = n2 → slugify_name n1 = slugify_name n2) ∧
    (∀ name : String, (slugify_name name).data.all isSlugChar = true) ∧
    slugify_name ("Jane D" ++ String.singleton (Char.ofNat 39) ++ "Oe-Smith") =
      "jane_doe_smith" := by
  refine ⟨fun n1 n2 h => by rw [h], slugify_chars, by decide⟩

/-- Witness for claim C3 at concrete inputs. -/
theorem claim_C3_witness :
    slugify_name "Jane  Doe" = slugify_name "Jane  Doe" ∧
    (slugify_name "Jane  Doe").data.all isSlugChar = true :=
  ⟨claim_C3_slug_deterministic_safe.1 "Jane  Doe" "Jane  Doe" rfl,
   claim_C3_slug_deterministic_safe.2.1 "Jane  Doe"⟩

theorem extract_entry_fields (resolve : String → String) (entry : EntryTag)
    (letter : Option String) (d : ModelDict)
    (h : extract_model_from_entry resolve entry letter = some d) :
    ∃ link, entry.link = some link ∧ d.name = link.text ∧ link.text ≠ "" ∧
      d.slug = slugify_name d.name := by
  obtain ⟨lnk, dataId, dataDiv, img⟩ := entry
  cases lnk with
  | none => exact Option.noConfusion h
  | some link =>
    simp only [extract_model_from_entry] at h
    split at h
    · cases h
    · split at h
      · cases h
      · injection h with h2
        subst h2
        exact ⟨link, rfl, rfl, by assumption, rfl⟩

set_option maxHeartbeats 2000000 in
theorem extract_link_fields (resolve : String → String) (e : LinkElem) (d : ModelDict)
    (h : extract_model_from_link resolve e = some d) :
    d.name = (match e.img with
      | some img => if img.alt != "" then pyStrip img.alt else e.text
      | none => e.text) ∧ d.name ≠ "" ∧ d.slug = slugify_name d.name := by
  obtain ⟨txt, href, img⟩ := e
  cases img with
  | none =>
    simp only [extract_model_from_link] at h
    repeat' split at h
    any_goals exact Option.noConfusion h
    all_goals
      injection h with h2
      subst h2
      refine ⟨?_, by assumption, rfl⟩
      simp_all
  | some im =>
    simp only [extract_model_from_link] at h
    repeat' split at h
    any_goals exact Option.noConfusion h
    all_goals
      injection h with h2
      subst h2
      refine ⟨?_, by assumption, rfl⟩
      simp_all

/-- C8 counterexample: the fallback link extractor prefers the image
alt text over the link text; an element with nonempty link text and a
nonempty alt yields the alt text, refuting the claim that the name
equals the link text whenever the link text is nonempty. -/
theorem claim_C8_counterexample :
    (extract_model_from_link (fun u => "https://apmmodels.com" ++ u)
      ⟨"Link Name", "/dev-1-x", some ⟨"/t.jpg", "Alt Name"⟩⟩).map ModelDict.name =
      some "Alt Name" ∧ ("Alt Name" : String) ≠ "Link Name" := by
  constructor
  · decide
  · decide

/-- C8 amended: the entry extractor takes the name from the link text
(rejecting empty link text, with no alt fallback), while the fallback
link extractor takes the stripped image alt text whenever an image
with nonempty alt is present, and falls back to the link text only
when there is no image or its alt is empty. -/
theorem claim_C8_name_derivation_amended :
    (∀ (resolve : String → String) (entry : EntryTag) (letter : Option String)
      (d : ModelDict), extract_model_from_entry resolve entry letter = some d →
        ∃ link, entry.link = some link ∧ d.name = link.text ∧ link.text ≠ "") ∧
    (∀ (resolve : String → String) (e : LinkElem) (im : ImgTag) (d : ModelDict),
      e.img = some im → im.alt ≠ "" →
        extract_model_from_link resolve e = some d → d.name = pyStrip im.alt) ∧
    (∀ (resolve : String → String) (e : LinkElem) (d : ModelDict),
      e.img = none → extract_model_from_link resolve e = some d → d.name = e.text) ∧
    (∀ (resolve : String → String) (e : LinkElem) (im : ImgTag) (d : ModelDict),
      e.img = some im → im.alt = "" →
        extract_model_from_link resolve e = some d → d.name = e.text) := by
  refine ⟨?_, ?_, ?_, ?_⟩
  · intro resolve entry letter d h
    obtain ⟨link, h1, h2, h3, _⟩ := extract_entry_fields resolve entry letter d h
    exact ⟨link, h1, h2, h3⟩
  · intro resolve e im d himg halt h
    obtain ⟨hname, _, _⟩ := extract_link_fields resolve e d h
    rw [himg] at hname
    simpa [bne_iff_ne, halt] using hname
  · intro resolve e d himg h
    obtain ⟨hname, _, _⟩ := extract_link_fields resolve e d h
    rw [himg] at hname
    exact hname
  · intro resolve e im d himg halt h
    obtain ⟨hname, _, _⟩ := extract_link_fields resolve e d h
    rw [himg] at hname
    simpa [bne_iff_ne, halt] using hname

/-- Witness for the amended claim C8 at a concrete element. -/
theorem claim_C8_witness :
    (⟨"1", "Alt Name", "dev", "https://apmmodels.com/dev-1-x",
      "https://apmmodels.com/t.jpg", "", "", some "", "alt_name"⟩ : ModelDict).name =
      pyStrip "Alt Name" :=
  claim_C8_name_derivation_amended.2.1 (fun u => "https://apmmodels.com" ++ u)
    ⟨"Link Name", "/dev-1-x", some ⟨"/t.jpg", "Alt Name"⟩⟩ ⟨"/t.jpg", "Alt Name"⟩ _
    rfl (by decide) (by decide)

/-- C9 counterexample: the entry extractor accepts a nonempty display
name consisting only of punctuation, and the derived slug is empty,
refuting the claimed nonemptiness invariant. -/
theorem claim_C9_counterexample :
    (extract_model_from_entry (fun u => "https://apmmodels.com" ++ u)
      ⟨some ⟨".", "/dev-1-x"⟩, "", "", none⟩ none).map ModelDict.name = some "." ∧
    (extract_model_from_entry (fun u => "https://apmmodels.com" ++ u)
      ⟨some ⟨".", "/dev-1-x"⟩, "", "", none⟩ none).map ModelDict.slug = some "" := by
  constructor
  · decide
  · decide

/-- C9 amended: for every item produced by either index extractor, the
slug is the slugification of the name, it is filesystem safe (only
lowercase letters, digits and underscore), and it is nonempty whenever
the name contains at least one ASCII alphanumeric character (a name
consisting only of punctuation or underscores yields an empty slug). -/
theorem claim_C9_slug_amended :
    (∀ (resolve : String → String) (entry : EntryTag) (letter : Option String)
      (d : ModelDict), extract_model_from_entry resolve entry letter = some d →
        d.slug = slugify_name d.name ∧ d.slug.data.all isSlugChar = true ∧
        (d.name.data.any isAsciiAlnumChar = true → d.slug ≠ "")) ∧
    (∀ (resolve : String → String) (e : LinkElem) (d : ModelDict),
      extract_model_from_link resolve e = some d →
        d.slug = slugify_name d.name ∧ d.slug.data.all isSlugChar = true ∧
        (d.name.data.any isAsciiAlnumChar = true → d.slug ≠ "")) := by
  constructor
  · intro resolve entry letter d h
    obtain ⟨link, _, _, _, hslug⟩ := extract_entry_fields resolve entry letter d h
    refine ⟨hslug, ?_, ?_⟩
    · rw [hslug]; exact slugify_chars d.name
    · intro hal; rw [hslug]; exact slugify_ne_empty_of_alnum hal
  · intro resolve e d h
    obtain ⟨_, _, hslug⟩ := extract_link_fields resolve e d h
    refine ⟨hslug, ?_, ?_⟩
    · rw [hslug]; exact slugify_chars d.name
    · intro hal; rw [hslug]; exact slugify_ne_empty_of_alnum hal

/-- Witness for the amended claim C9 at a concrete accepted entry. -/
theorem claim_C9_witness :
    (⟨"2", "Jane", "dev", "https://apmmodels.com/dev-2-x", "", "", "",
      none, "jane"⟩ : ModelDict).slug ≠ "" :=
  (claim_C9_slug_amended.1 (fun u => "https://apmmodels.com" ++ u)
    ⟨some ⟨"Jane", "/dev-2-x"⟩, "", "", none⟩ none _ (by decide)).2.2 (by decide)

theorem containsSeq_iff {pat : List Char} : ∀ {l : List Char},
    containsSeq pat l = true ↔ ∃ pre post, l = pre ++ pat ++ post := by
  intro l
  induction l with
  | nil =>
    rw [show containsSeq pat [] = pat.isEmpty from rfl]
    constructor
    · intro h
      have hp : pat = [] := List.isEmpty_iff.mp h
      exact ⟨[], [], by simp [hp]⟩
    · rintro ⟨pre, post, heq⟩
      have := List.append_eq_nil.mp heq.symm
      have h2 := List.append_eq_nil.mp this.1
      simp [List.isEmpty_iff, h2.2]
  | cons hd tl ih =>
    rw [show containsSeq pat (hd :: tl) = (pat.isPrefixOf (hd :: tl) || containsSeq pat tl)
      from rfl]
    rw [Bool.or_eq_true]
    constructor
    · rintro (hp | hc)
      · obtain ⟨t, ht⟩ := List.isPrefixOf_iff_prefix.mp hp
        exact ⟨[], t, by simp [ht.symm]⟩
      · obtain ⟨pre, post, heq⟩ := ih.mp hc
        exact ⟨hd :: pre, post, by simp [heq]⟩
    · rintro ⟨pre, post, heq⟩
      cases pre with
      | nil =>
        left
        exact List.isPrefixOf_iff_prefix.mpr ⟨post, by simpa using heq.symm⟩
      | cons p ps =>
        right
        apply ih.mpr
        refine ⟨ps, post, ?_⟩
        have h2 : hd :: tl = p :: (ps ++ pat ++ post) := by simpa using heq
        exact (List.cons_eq_cons.mp h2).2

theorem containsSeq_extend {pat t l : List Char} (h : containsSeq pat t = true)
    (pre0 : List Char) (heq : l = pre0 ++ t) : containsSeq pat l = true := by
  obtain ⟨a, b, hab⟩ := containsSeq_iff.mp h
  apply containsSeq_iff.mpr
  exact ⟨pre0 ++ a, b, by simp [heq, hab]⟩

theorem scanFirst_some_exists {f : List Char → Option String} :
    ∀ {l : List Char} {d : String}, scanFirst f l = some d →
      ∃ pre t, l = pre ++ t ∧ f t = some d := by
  intro l
  induction l with
  | nil => intro d h; simp [scanFirst] at h
  | cons hd tl ih =>
    intro d h
    rcases hf : f (hd :: tl) with _ | d0
    · rw [show scanFirst f (hd :: tl) = (match f (hd :: tl) with
        | some d1 => some d1
        | none => scanFirst f tl) from rfl, hf] at h
      obtain ⟨pre, t, h1, h2⟩ := ih h
      exact ⟨hd :: pre, t, by simp [h1], h2⟩
    · rw [show scanFirst f (hd :: tl) = (match f (hd :: tl) with
        | some d1 => some d1
        | none => scanFirst f tl) from rfl, hf] at h
      have h2 : some d0 = some d := h
      exact ⟨[], hd :: tl, rfl, by rw [hf]; exact h2⟩

theorem matchP1_some {s : List Char} {d : String} (h : matchP1 s = some d) :
    (d = "ima" ∨ d = "mai" ∨ d = "dev") ∧ containsSeq d.data s = true := by
  unfold matchP1 at h
  split at h
  · injection h with h2
    subst h2
    obtain ⟨t, ht⟩ := List.isPrefixOf_iff_prefix.mp (by assumption)
    refine ⟨Or.inl rfl, containsSeq_iff.mpr ⟨"/models/".data, '/' :: t, ?_⟩⟩
    rw [← ht]
    rfl
  · split at h
    · injection h with h2
      subst h2
      obtain ⟨t, ht⟩ := List.isPrefixOf_iff_prefix.mp (by assumption)
      refine ⟨Or.inr (Or.inl rfl), containsSeq_iff.mpr ⟨"/models/".data, '/' :: t, ?_⟩⟩
      rw [← ht]
      rfl
    · split at h
      · injection h with h2
        subst h2
        obtain ⟨t, ht⟩ := List.isPrefixOf_iff_prefix.mp (by assumption)
        refine ⟨Or.inr (Or.inr rfl), containsSeq_iff.mpr ⟨"/models/".data, '/' :: t, ?_⟩⟩
        rw [← ht]
        rfl
      · cases h

theorem matchP2_some {s : List Char} {d : String} (h : matchP2 s = some d) :
    (d = "ima" ∨ d = "mai" ∨ d = "dev") ∧ containsSeq d.data s = true := by
  unfold matchP2 at h
  split at h
  · injection h with h2
    subst h2
    have hand := Bool.and_eq_true _ _ |>.mp (by assumption)
    obtain ⟨t, ht⟩ := List.isPrefixOf_iff_prefix.mp hand.1
    refine ⟨Or.inl rfl, containsSeq_iff.mpr ⟨['/'], '-' :: t, ?_⟩⟩
    rw [← ht]
    rfl
  · split at h
    · injection h with h2
      subst h2
      have hand := Bool.and_eq_true _ _ |>.mp (by assumption)
      obtain ⟨t, ht⟩ := List.isPrefixOf_iff_prefix.mp hand.1
      refine ⟨Or.inr (Or.inl rfl), containsSeq_iff.mpr ⟨['/'], '-' :: t, ?_⟩⟩
      rw [← ht]
      rfl
    · split at h
      · injection h with h2
        subst h2
        have hand := Bool.and_eq_true _ _ |>.mp (by assumption)
        obtain ⟨t, ht⟩ := List.isPrefixOf_iff_prefix.mp hand.1
        refine ⟨Or.inr (Or.inr rfl), containsSeq_iff.mpr ⟨['/'], '-' :: t, ?_⟩⟩
        rw [← ht]
        rfl
      · cases h

theorem matchP3_some {s : List Char} {d : String} (h : matchP3 s = some d) :
    (d = "ima" ∨ d = "mai" ∨ d = "dev") ∧ containsSeq d.data s = true := by
  unfold matchP3 at h
  split at h
  · injection h with h2
    subst h2
    obtain ⟨t, ht⟩ := List.isPrefixOf_iff_prefix.mp (by assumption)
    refine ⟨Or.inl rfl, containsSeq_iff.mpr ⟨['/'], '/' :: t, ?_⟩⟩
    rw [← ht]
    rfl
  · split at h
    · injection h with h2
      subst h2
      obtain ⟨t, ht⟩ := List.isPrefixOf_iff_prefix.mp (by assumption)
      refine ⟨Or.inr (Or.inl rfl), containsSeq_iff.mpr ⟨['/'], '/' :: t, ?_⟩⟩
      rw [← ht]
      rfl
    · split at h
      · injection h with h2
        subst h2
        obtain ⟨t, ht⟩ := List.isPrefixOf_iff_prefix.mp (by assumption)
        refine ⟨Or.inr (Or.inr rfl), containsSeq_iff.mpr ⟨['/'], '/' :: t, ?_⟩⟩
        rw [← ht]
        rfl
      · cases h

theorem scanP1_props {l : List Char} {d : String} (h : scanFirst matchP1 l = some d) :
    (d = "ima" ∨ d = "mai" ∨ d = "dev") ∧ containsSeq d.data l = true := by
  obtain ⟨pre, t, hl, hf⟩ := scanFirst_some_exists h
  have hm := matchP1_some hf
  exact ⟨hm.1, containsSeq_extend hm.2 pre hl⟩

theorem scanP2_props {l : List Char} {d : String} (h : scanFirst matchP2 l = some d) :
    (d = "ima" ∨ d = "mai" ∨ d = "dev") ∧ containsSeq d.data l = true := by
  obtain ⟨pre, t, hl, hf⟩ := scanFirst_some_exists h
  have hm := matchP2_some hf
  exact ⟨hm.1, containsSeq_extend hm.2 pre hl⟩

theorem scanP3_props {l : List Char} {d : String} (h : scanFirst matchP3 l = some d) :
    (d = "ima" ∨ d = "mai" ∨ d = "dev") ∧ containsSeq d.data l = true := by
  obtain ⟨pre, t, hl, hf⟩ := scanFirst_some_exists h
  have hm := matchP3_some hf
  exact ⟨hm.1, containsSeq_extend hm.2 pre hl⟩

/-- C5 counterexample: first match wins across the whole URL, so a URL
that contains the substring /models/dev/ after an earlier /models/ima/
yields ima, refuting the claim that any URL containing /models/dev/
yields dev. -/
theorem claim_C5_counterexample :
    containsSeq "/models/dev/".data ("https://x/models/ima/models/dev/" : String).data =
      true ∧
    extract_division_from_url "https://x/models/ima/models/dev/" = "ima" ∧
    ("ima" : String) ≠ "dev" := by
  refine ⟨by decide, by decide, by decide⟩

/-- C5 amended: division extraction tries the three patterns in order
over the whole URL and returns the division of the first (leftmost)
match of the first pattern that matches anywhere; the result is always
one of ima, mai, dev, unknown; a URL containing none of the three
division tokens yields unknown; and a URL containing /models/dev/
yields dev when no other division pattern matches earlier, as on the
concrete URL of the example. -/
theorem claim_C5_division_amended :
    (∀ (url : String) (d : String), scanFirst matchP1 url.data = some d →
      extract_division_from_url url = d) ∧
    (∀ (url : String) (d : String), scanFirst matchP1 url.data = none →
      scanFirst matchP2 url.data = some d → extract_division_from_url url = d) ∧
    (∀ (url : String) (d : String), scanFirst matchP1 url.data = none →
      scanFirst matchP2 url.data = none → scanFirst matchP3 url.data = some d →
      extract_division_from_url url = d) ∧
    (∀ url : String, extract_division_from_url url = "ima" ∨
      extract_division_from_url url = "mai" ∨ extract_division_from_url url = "dev" ∨
      extract_division_from_url url = "unknown") ∧
    (∀ url : String, containsSeq "ima".data url.data = false →
      containsSeq "mai".data url.data = false → containsSeq "dev".data url.data = false →
      extract_division_from_url url = "unknown") ∧
    extract_division_from_url "https://apmmodels.com/models/dev/123" = "dev" := by
  refine ⟨?_, ?_, ?_, ?_, ?_, by decide⟩
  · intro url d h
    simp [extract_division_from_url, h]
  · intro url d h1 h2
    simp [extract_division_from_url, h1, h2]
  · intro url d h1 h2 h3
    simp [extract_division_from_url, h1, h2, h3]
  · intro url
    unfold extract_division_from_url
    rcases h1 : scanFirst matchP1 url.data with _ | d1
    · rcases h2 : scanFirst matchP2 url.data with _ | d2
      · rcases h3 : scanFirst matchP3 url.data with _ | d3
        · simp
        · rcases (scanP3_props h3).1 with rfl | rfl | rfl <;> simp
      · rcases (scanP2_props h2).1 with rfl | rfl | rfl <;> simp
    · rcases (scanP1_props h1).1 with rfl | rfl | rfl <;> simp
  · intro url hima hmai hdev
    unfold extract_division_from_url
    rcases h1 : scanFirst matchP1 url.data with _ | d1
    · rcases h2 : scanFirst matchP2 url.data with _ | d2
      · rcases h3 : scanFirst matchP3 url.data with _ | d3
        · rfl
        · exfalso
          have hp := scanP3_props h3
          rcases hp.1 with rfl | rfl | rfl
          · rw [hp.2] at hima; cases hima
          · rw [hp.2] at hmai; cases hmai
          · rw [hp.2] at hdev; cases hdev
      · exfalso
        have hp := scanP2_props h2
        rcases hp.1 with rfl | rfl | rfl
        · rw [hp.2] at hima; cases hima
        · rw [hp.2] at hmai; cases hmai
        · rw [hp.2] at hdev; cases hdev
    · exfalso
      have hp := scanP1_props h1
      rcases hp.1 with rfl | rfl | rfl
      · rw [hp.2] at hima; cases hima
      · rw [hp.2] at hmai; cases hmai
      · rw [hp.2] at hdev; cases hdev

/-- Witness for the amended claim C5 at concrete URLs. -/
theorem claim_C5_witness :
    extract_division_from_url "https://apmmodels.com/models/mai/9" = "mai" ∧
    extract_division_from_url "https://apmmodels.com/w/nothing" = "unknown" :=
  ⟨claim_C5_division_amended.1 "https://apmmodels.com/models/mai/9" "mai" (by decide),
   claim_C5_division_amended.2.2.2.2.1 "https://apmmodels.com/w/nothing"
     (by decide) (by decide) (by decide)⟩

theorem containsSeq_of_suffix {pat l : List Char} (pre : List Char)
    (h : l = pre ++ pat) : containsSeq pat l = true :=
  containsSeq_iff.mpr ⟨pre, [], by simp [h]⟩

theorem firstContainedExt_mem : ∀ {exts : List String} {path : List Char} {e : String},
    firstContainedExt exts path = some e → e ∈ exts := by
  intro exts
  induction exts with
  | nil => intro path e h; simp [firstContainedExt] at h
  | cons hd tl ih =>
    intro path e h
    rw [firstContainedExt] at h
    split at h
    · injection h with h2
      subst h2
      exact List.mem_cons_self _ _
    · exact List.mem_cons_of_mem _ (ih h)

/-- C7 counterexample: the extension check is substring containment in
source order, with .jpg tested before .jpeg, so a URL whose path ends
in .jpeg but also contains .jpg as a substring yields .jpg, refuting
the claim that every path ending in .jpeg yields .jpeg. -/
theorem claim_C7_counterexample :
    (String.mk (urlPath ("https://host/a.jpg.jpeg" : String).data)) = "/a.jpg.jpeg" ∧
    get_image_extension "https://host/a.jpg.jpeg" = ".jpg" ∧
    (".jpg" : String) ≠ ".jpeg" := by
  refine ⟨by decide, by decide, by decide⟩

/-- C7 amended: the extension is inferred from the lowercased URL path
by testing the fixed list .jpg, .jpeg, .png, .gif, .webp in order for
substring containment, returning the first hit and defaulting to .jpg;
hence the result is always in the known list, a path with no known
extension yields .jpg, a path ending in .jpeg yields .jpeg provided
.jpg does not occur in it, and a path ending in .png yields .png
provided neither .jpg nor .jpeg occurs in it. -/
theorem claim_C7_extension_amended :
    (∀ url : String, get_image_extension url ∈ knownImageExts) ∧
    (∀ url : String,
      containsSeq ".jpg".data ((urlPath url.data).map pyToLower) = false →
      containsSeq ".jpeg".data ((urlPath url.data).map pyToLower) = false →
      containsSeq ".png".data ((urlPath url.data).map pyToLower) = false →
      containsSeq ".gif".data ((urlPath url.data).map pyToLower) = false →
      containsSeq ".webp".data ((urlPath url.data).map pyToLower) = false →
      get_image_extension url = ".jpg") ∧
    (∀ (url : String) (pre : List Char),
      (urlPath url.data).map pyToLower = pre ++ ".jpeg".data →
      containsSeq ".jpg".data ((urlPath url.data).map pyToLower) = false →
      get_image_extension url = ".jpeg") ∧
    (∀ (url : String) (pre : List Char),
      (urlPath url.data).map pyToLower = pre ++ ".png".data →
      containsSeq ".jpg".data ((urlPath url.data).map pyToLower) = false →
      containsSeq ".jpeg".data ((urlPath url.data).map pyToLower) = false →
      get_image_extension url = ".png") := by
  refine ⟨?_, ?_, ?_, ?_⟩
  · intro url
    rcases hf : firstContainedExt knownImageExts ((urlPath url.data).map pyToLower)
      with _ | e
    · rw [show get_image_extension url = ".jpg" by simp [get_image_extension, hf]]
      decide
    · have hm := firstContainedExt_mem hf
      simpa [get_image_extension, hf] using hm
  · intro url h1 h2 h3 h4 h5
    simp [get_image_extension, firstContainedExt, knownImageExts, h1, h2, h3, h4, h5]
  · intro url pre hsuf h1
    have hc : containsSeq ".jpeg".data ((urlPath url.data).map pyToLower) = true :=
      containsSeq_of_suffix pre hsuf
    simp [get_image_extension, firstContainedExt, knownImageExts, h1, hc]
  · intro url pre hsuf h1 h2
    have hc : containsSeq ".png".data ((urlPath url.data).map pyToLower) = true :=
      containsSeq_of_suffix pre hsuf
    simp [get_image_extension, firstContainedExt, knownImageExts, h1, h2, hc]

/-- Witness for the amended claim C7 at concrete URLs. -/
theorem claim_C7_witness :
    get_image_extension "https://host/pic.jpeg" = ".jpeg" ∧
    get_image_extension "https://host/pic.PNG?w=.fake" = ".png" ∧
    get_image_extension "https://host/noext" = ".jpg" ∧
    get_image_extension "https://host/x.gif" ∈ knownImageExts :=
  ⟨claim_C7_extension_amended.2.2.1 "https://host/pic.jpeg" "/pic".data
      (by decide) (by decide),
   claim_C7_extension_amended.2.2.2 "https://host/pic.PNG?w=.fake" "/pic".data
      (by decide) (by decide) (by decide),
   claim_C7_extension_amended.2.1 "https://host/noext"
      (by decide) (by decide) (by decide) (by decide) (by decide),
   claim_C7_extension_amended.1 "https://host/x.gif"⟩

theorem contains_false_of {seen : List String} {u : String} (h : u ∉ seen) :
    seen.contains u = false := by
  apply Bool.eq_false_iff.mpr
  intro helem
  exact h (List.mem_of_elem_eq_true helem)

theorem not_mem_of_contains_false {seen : List String} {u : String}
    (h : seen.contains u = false) : u ∉ seen := by
  intro hm
  have h2 : seen.contains u = true := List.elem_eq_true_of_mem hm
  rw [h2] at h
  exact absurd h (by decide)

theorem dedupAux_sublist : ∀ (l : List ModelDict) (seen : List String),
    (dedupModelsAux seen l).Sublist l := by
  intro l
  induction l with
  | nil => intro seen; simp [dedupModelsAux]
  | cons m tl ih =>
    intro seen
    rw [dedupModelsAux]
    split
    · exact (ih seen).cons m
    · exact (ih _).cons₂ m

theorem dedupAux_countP_zero : ∀ (l : List ModelDict) (seen : List String) (u : String),
    u ∈ seen →
    (dedupModelsAux seen l).countP (fun m => m.profile_url == u) = 0 := by
  intro l
  induction l with
  | nil => intro seen u _; rfl
  | cons m tl ih =>
    intro seen u hu
    rw [dedupModelsAux]
    split
    · exact ih seen u hu
    · next hc =>
      rw [List.countP_cons]
      have hne : (m.profile_url == u) = false := by
        apply beq_eq_false_iff_ne.mpr
        intro heq
        rw [heq] at hc
        exact hc (List.elem_eq_true_of_mem hu)
      rw [hne]
      simp only [Bool.false_eq_true, if_false, Nat.add_zero]
      exact ih _ u (List.mem_cons_of_mem _ hu)

theorem dedupAux_countP_one : ∀ (l : List ModelDict) (seen : List String) (u : String),
    u ∉ seen →
    u ∈ l.map (fun m => m.profile_url) →
    (dedupModelsAux seen l).countP (fun m => m.profile_url == u) = 1 := by
  intro l
  induction l with
  | nil => intro seen u _ hmem; simp at hmem
  | cons m tl ih =>
    intro seen u hseen hmem
    rw [dedupModelsAux]
    have hmem2 : u = m.profile_url ∨ u ∈ tl.map (fun x => x.profile_url) := by
      simpa using hmem
    split
    · next hc =>
      have hne : u ≠ m.profile_url := by
        intro heq
        rw [← heq] at hc
        exact hseen (List.mem_of_elem_eq_true hc)
      rcases hmem2 with heq | htl
      · exact absurd heq hne
      · exact ih seen u hseen (by simpa using htl)
    · next hc =>
      rw [List.countP_cons]
      by_cases heq : m.profile_url = u
      · have hbeq : (m.profile_url == u) = true := beq_iff_eq.mpr heq
        rw [hbeq]
        have hz : (dedupModelsAux (m.profile_url :: seen) tl).countP
            (fun x => x.profile_url == u) = 0 := by
          apply dedupAux_countP_zero
          rw [heq]
          exact List.mem_cons_self _ _
        rw [hz]
        simp
      · have hbeq : (m.profile_url == u) = false := beq_eq_false_iff_ne.mpr heq
        rw [hbeq]
        simp only [Bool.false_eq_true, if_false, Nat.add_zero]
        apply ih
        · intro hm
          rcases List.mem_cons.mp hm with h1 | h2
          · exact heq h1.symm
          · exact hseen h2
        · rcases hmem2 with h1 | h2
          · exact absurd h1.symm heq
          · simpa using h2

theorem dedupAux_find : ∀ (l : List ModelDict) (seen : List String) (u : String),
    u ∉ seen →
    (dedupModelsAux seen l).find? (fun m => m.profile_url == u) =
      l.find? (fun m => m.profile_url == u) := by
  intro l
  induction l with
  | nil => intro seen u _; rfl
  | cons m tl ih =>
    intro seen u hseen
    rw [dedupModelsAux]
    split
    · next hc =>
      have hne : (m.profile_url == u) = false := by
        apply beq_eq_false_iff_ne.mpr
        intro heq
        rw [heq] at hc
        exact hseen (List.mem_of_elem_eq_true hc)
      rw [List.find?_cons_of_neg _ (by simp [hne])]
      exact ih seen u hseen
    · next hc =>
      by_cases heq : m.profile_url = u
      · have hbeq : (m.profile_url == u) = true := beq_iff_eq.mpr heq
        rw [List.find?_cons_of_pos _ (by simp [hbeq]),
          List.find?_cons_of_pos _ (by simp [hbeq])]
      · have hbeq : (m.profile_url == u) = false := beq_eq_false_iff_ne.mpr heq
        rw [List.find?_cons_of_neg _ (by simp [hbeq]),
          List.find?_cons_of_neg _ (by simp [hbeq])]
        apply ih
        intro hm
        rcases List.mem_cons.mp hm with h1 | h2
        · exact heq h1.symm
        · exact hseen h2

/-- C4: the index deduplication keeps, for every profile URL occurring
in the extracted list, exactly one entry, namely the first one with
that URL, and the surviving entries keep their relative order (the
result is a sublist of the input). -/
theorem claim_C4_dedup_by_url :
    (∀ models : List ModelDict, (dedupModels models).Sublist models) ∧
    (∀ (models : List ModelDict) (u : String),
      u ∈ models.map (fun m => m.profile_url) →
      (dedupModels models).countP (fun m => m.profile_url == u) = 1) ∧
    (∀ (models : List ModelDict) (u : String),
      (dedupModels models).find? (fun m => m.profile_url == u) =
        models.find? (fun m => m.profile_url == u)) := by
  refine ⟨?_, ?_, ?_⟩
  · intro models
    exact dedupAux_sublist models []
  · intro models u hmem
    exact dedupAux_countP_one models [] u (by simp) hmem
  · intro models u
    exact dedupAux_find models [] u (by simp)

/-- Witness for claim C4 on a concrete list with a duplicate URL. -/
theorem claim_C4_witness :
    (dedupModels [⟨"1", "A", "dev", "u1", "", "", "", none, "a"⟩,
       ⟨"2", "B", "dev", "u2", "", "", "", none, "b"⟩,
       ⟨"3", "C", "dev", "u1", "", "", "", none, "c"⟩]).countP
      (fun m => m.profile_url == "u1") = 1 :=
  claim_C4_dedup_by_url.2.1
    [⟨"1", "A", "dev", "u1", "", "", "", none, "a"⟩,
     ⟨"2", "B", "dev", "u2", "", "", "", none, "b"⟩,
     ⟨"3", "C", "dev", "u1", "", "", "", none, "c"⟩] "u1" (by decide)

/-- C6: validation accepts a record exactly when the four required
fields are nonempty, the division is in the configured division list,
and the image count meets the configured minimum; the attributes field
(and hence any missing expected attribute) never affects the result. -/
theorem claim_C6_validation :
    (∀ (cfg : ValidationConfig) (m : ModelData),
      validate_model_data cfg m = true ↔
        (m.model_id ≠ "" ∧ m.name ≠ "" ∧ m.division ≠ "" ∧ m.profile_url ≠ "" ∧
         m.division ∈ cfg.required_divisions ∧
         cfg.min_images_per_model ≤ m.images.length)) ∧
    (∀ (cfg : ValidationConfig) (m : ModelData) (attrs : List (String × String)),
      validate_model_data cfg { m with attributes := attrs } =
        validate_model_data cfg m) := by
  constructor
  · intro cfg m
    unfold validate_model_data
    split_ifs with h1 h2 h3 h4 h5 h6
    · simp [h1]
    · simp [h1, h2]
    · simp [h1, h2, h3]
    · simp [h1, h2, h3, h4]
    · have h5f : cfg.required_divisions.contains m.division = false := by
        simpa using h5
      constructor
      · intro hh; cases hh
      · rintro ⟨_, _, _, _, hmem, _⟩
        have := List.elem_eq_true_of_mem hmem
        rw [show cfg.required_divisions.contains m.division = true from this] at h5f
        exact absurd h5f (by decide)
    · constructor
      · intro hh; cases hh
      · rintro ⟨_, _, _, _, _, hlen⟩
        omega
    · have h5t : cfg.required_divisions.contains m.division = true := by
        simpa using h5
      have hmem : m.division ∈ cfg.required_divisions :=
        List.mem_of_elem_eq_true h5t
      simp [h1, h2, h3, h4, hmem]
      omega
  · intro cfg m attrs
    rfl

/-- Witness for claim C6 is not needed formally since the statement is
an equivalence, but this checks it at a concrete accepted record. -/
theorem claim_C6_witness :
    validate_model_data ⟨["ima", "mai", "dev"], 1, []⟩
      ⟨"7", "Jane", "dev", "https://apmmodels.com/dev-7-j", "", [], ["i.jpg"]⟩ = true :=
  (claim_C6_validation.1 ⟨["ima", "mai", "dev"], 1, []⟩
    ⟨"7", "Jane", "dev", "https://apmmodels.com/dev-7-j", "", [], ["i.jpg"]⟩).mpr
    (by refine ⟨by decide, by decide, by decide, by decide, by decide, by decide⟩)

theorem downloadGallery_len_le (dlOk : String → Bool) :
    ∀ (l : List String) (i : Nat), (downloadGallery dlOk l i).files.length ≤ l.length := by
  intro l
  induction l with
  | nil => intro i; simp [downloadGallery]
  | cons u rest ih =>
    intro i
    rw [downloadGallery]
    split
    · simpa using Nat.succ_le_succ (ih (i + 1))
    · exact Nat.le_succ_of_le (ih (i + 1))

/-- C2: the download stage attempts at most the configured maximum
minus one gallery downloads (the capped list is the prefix of the
gallery list; later URLs are dropped), and in the example scenario of
a configured maximum of 5, a present thumbnail and 10 gallery URLs
with every download succeeding, the produced files are exactly the
thumbnail file and the four portfolio files portfolio1 to portfolio4
named in gallery order. -/
theorem claim_C2_asset_cap :
    (∀ (maxI : Int) (dlOk : String → Bool) (thumbnail : String) (gallery : List String),
      1 ≤ maxI →
      (download_model_images maxI dlOk thumbnail gallery).files.length ≤
          1 + (maxI - 1).toNat ∧
        pyTake (maxI - 1) gallery = gallery.take (maxI - 1).toNat) ∧
    (∀ thumb g1 g2 g3 g4 g5 g6 g7 g8 g9 g10 : String, thumb ≠ "" →
      download_model_images 5 (fun _ => true) thumb
          [g1, g2, g3, g4, g5, g6, g7, g8, g9, g10] =
        ⟨["thumbnail" ++ get_image_extension thumb,
          "portfolio1" ++ get_image_extension g1,
          "portfolio2" ++ get_image_extension g2,
          "portfolio3" ++ get_image_extension g3,
          "portfolio4" ++ get_image_extension g4], 5, 0⟩) := by
  constructor
  · intro maxI dlOk thumbnail gallery hmax
    have hpy : pyTake (maxI - 1) gallery = gallery.take (maxI - 1).toNat := by
      rw [pyTake, if_pos (by omega)]
    refine ⟨?_, hpy⟩
    rw [download_model_images]
    simp only [List.length_append]
    have h1 : (if thumbnail != "" && dlOk thumbnail then
        ["thumbnail" ++ get_image_extension thumbnail] else []).length ≤ 1 := by
      split <;> simp
    have h2 := downloadGallery_len_le dlOk (pyTake (maxI - 1) gallery) 1
    have h3 : (pyTake (maxI - 1) gallery).length ≤ (maxI - 1).toNat := by
      rw [hpy]
      simp [List.length_take]
    omega
  · intro thumb g1 g2 g3 g4 g5 g6 g7 g8 g9 g10 h
    have hb : (thumb != "") = true := bne_iff_ne.mpr h
    simp [download_model_images, pyTake, downloadGallery, hb]
    refine ⟨?_, ?_, ?_, ?_⟩ <;> exact congrArg (fun s => s ++ _) (by decide)

/-- Witness for claim C2 at concrete inputs. -/
theorem claim_C2_witness :
    ((download_model_images 5 (fun _ => true) "t.png"
        ["a.jpg", "b.jpg", "c.jpg"]).files.length ≤ 1 + ((5 : Int) - 1).toNat ∧
      pyTake ((5 : Int) - 1) ["a.jpg", "b.jpg", "c.jpg"] =
        ["a.jpg", "b.jpg", "c.jpg"].take ((5 : Int) - 1).toNat) ∧
    download_model_images 5 (fun _ => true) "t.png"
        ["g1.jpg", "g2", "g3", "g4", "g5", "g6", "g7", "g8", "g9", "g10"] =
      ⟨["thumbnail" ++ get_image_extension "t.png",
        "portfolio1" ++ get_image_extension "g1.jpg",
        "portfolio2" ++ get_image_extension "g2",
        "portfolio3" ++ get_image_extension "g3",
        "portfolio4" ++ get_image_extension "g4"], 5, 0⟩ :=
  ⟨claim_C2_asset_cap.1 5 (fun _ => true) "t.png" ["a.jpg", "b.jpg", "c.jpg"]
      (by decide),
   claim_C2_asset_cap.2 "t.png" "g1.jpg" "g2" "g3" "g4" "g5" "g6" "g7" "g8" "g9" "g10"
      (by decide)⟩

theorem process_char (cfg : ValidationConfig)
    (scrape : ModelData → Except Unit ModelData)
    (download : ModelData → Except (Nat × Nat) (ModelData × Nat × Nat))
    (saveOk : ModelData → Bool) (s : RunState) (m : ModelData) :
    ((process_single_model cfg scrape download saveOk s m).1.isSome =
      itemSucceeds cfg scrape download saveOk m) ∧
    ((process_single_model cfg scrape download saveOk s m).2.stats.models_processed =
      s.stats.models_processed +
        (if itemSucceeds cfg scrape download saveOk m then 1 else 0)) ∧
    ((process_single_model cfg scrape download saveOk s m).2.stats.models_failed =
      s.stats.models_failed +
        (if itemSucceeds cfg scrape download saveOk m then 0 else 1)) ∧
    ((process_single_model cfg scrape download saveOk s m).2.log.length =
      s.log.length + (if itemSucceeds cfg scrape download saveOk m then 1 else 0)) := by
  cases hs : scrape m with
  | error e =>
    simp [process_single_model, itemSucceeds, hs]
  | ok m2 =>
    cases hd : download m2 with
    | error d =>
      simp [process_single_model, itemSucceeds, hs, hd, addImageStats]
    | ok t =>
      obtain ⟨m3, dl, fl⟩ := t
      by_cases hv : validate_model_data cfg m3
      · by_cases hsv : saveOk m3
        · simp [process_single_model, itemSucceeds, hs, hd, hv, hsv, addImageStats]
        · simp [process_single_model, itemSucceeds, hs, hd, hv, hsv, addImageStats]
      · simp [process_single_model, itemSucceeds, hs, hd, hv, addImageStats]

theorem run_good_prefix (cfg : ValidationConfig)
    (scrape : ModelData → Except Unit ModelData)
    (download : ModelData → Except (Nat × Nat) (ModelData × Nat × Nat))
    (saveOk : ModelData → Bool) :
    ∀ (models : List ModelData) (s : RunState),
      (∀ x ∈ models, itemSucceeds cfg scrape download saveOk x = true) →
      (run_parallel_processing cfg scrape download saveOk s models).2.stats.models_processed
          = s.stats.models_processed + models.length ∧
        (run_parallel_processing cfg scrape download saveOk s models).2.stats.models_failed
          = s.stats.models_failed ∧
        (run_parallel_processing cfg scrape download saveOk s models).2.log.length
          = s.log.length + models.length ∧
        (run_parallel_processing cfg scrape download saveOk s models).1.length
          = models.length := by
  intro models
  induction models with
  | nil => intro s _; simp [run_parallel_processing]
  | cons m rest ih =>
    intro s hall
    have hm := hall m (List.mem_cons_self _ _)
    have hc := process_char cfg scrape download saveOk s m
    rw [hm] at hc
    simp only [if_true] at hc
    have ihr := ih (process_single_model cfg scrape download saveOk s m).2
      (fun x hx => hall x (List.mem_cons_of_mem _ hx))
    have hsome : (process_single_model cfg scrape download saveOk s m).1.isSome = true :=
      hc.1
    obtain ⟨x, hx⟩ := Option.isSome_iff_exists.mp hsome
    obtain ⟨hc1, hc2, hc3, hc4⟩ := hc
    obtain ⟨ih1, ih2, ih3, ih4⟩ := ihr
    rw [run_parallel_processing]
    simp only [hx, List.length_cons]
    exact ⟨by omega, by omega, by omega, by omega⟩

theorem run_total (cfg : ValidationConfig)
    (scrape : ModelData → Except Unit ModelData)
    (download : ModelData → Except (Nat × Nat) (ModelData × Nat × Nat))
    (saveOk : ModelData → Bool) :
    ∀ (models : List ModelData) (s : RunState),
      (run_parallel_processing cfg scrape download saveOk s models).2.stats.models_processed
          + (run_parallel_processing cfg scrape download saveOk s models).2.stats.models_failed
        = s.stats.models_processed + s.stats.models_failed + models.length := by
  intro models
  induction models with
  | nil => intro s; simp [run_parallel_processing]
  | cons m rest ih =>
    intro s
    have hc := process_char cfg scrape download saveOk s m
    obtain ⟨hc1, hc2, hc3, hc4⟩ := hc
    have ihr := ih (process_single_model cfg scrape download saveOk s m).2
    rw [run_parallel_processing]
    cases hx : (process_single_model cfg scrape download saveOk s m).1 with
    | none =>
      simp only [hx, List.length_cons]
      by_cases hi : itemSucceeds cfg scrape download saveOk m
      · rw [hx] at hc1
        simp [hi] at hc1
      · rw [Bool.not_eq_true] at hi
        rw [hi] at hc2 hc3
        simp only [Bool.false_eq_true, if_false] at hc2 hc3
        omega
    | some x =>
      simp only [hx, List.length_cons]
      by_cases hi : itemSucceeds cfg scrape download saveOk m
      · rw [hi] at hc2 hc3
        simp only [if_true] at hc2 hc3
        omega
      · rw [hx] at hc1
        simp [hi] at hc1

/-- C10: every call to process_single_model increments exactly one of
the processed and failed counters, by exactly one: processed exactly
when the stage oracles return normally, validation passes and the save
succeeds (equivalently, when a result is returned), failed otherwise;
consequently a run over n items increases processed plus failed by
exactly n. -/
theorem claim_C10_counter_partition :
    (∀ (cfg : ValidationConfig) (scrape : ModelData → Except Unit ModelData)
      (download : ModelData → Except (Nat × Nat) (ModelData × Nat × Nat))
      (saveOk : ModelData → Bool) (s : RunState) (m : ModelData),
      ((process_single_model cfg scrape download saveOk s m).2.stats.models_processed +
          (process_single_model cfg scrape download saveOk s m).2.stats.models_failed =
        s.stats.models_processed + s.stats.models_failed + 1) ∧
      ((process_single_model cfg scrape download saveOk s m).2.stats.models_processed =
          s.stats.models_processed + 1 ↔
        itemSucceeds cfg scrape download saveOk m = true) ∧
      ((process_single_model cfg scrape download saveOk s m).2.stats.models_failed =
          s.stats.models_failed + 1 ↔
        itemSucceeds cfg scrape download saveOk m = false) ∧
      ((process_single_model cfg scrape download saveOk s m).1.isSome =
        itemSucceeds cfg scrape download saveOk m) ∧
      ((process_single_model cfg scrape download saveOk s m).2.log.length =
        s.log.length + (if itemSucceeds cfg scrape download saveOk m then 1 else 0))) ∧
    (∀ (cfg : ValidationConfig) (scrape : ModelData → Except Unit ModelData)
      (download : ModelData → Except (Nat × Nat) (ModelData × Nat × Nat))
      (saveOk : ModelData → Bool) (s : RunState) (models : List ModelData),
      (run_parallel_processing cfg scrape download saveOk s models).2.stats.models_processed
          + (run_parallel_processing cfg scrape download saveOk s models).2.stats.models_failed
        = s.stats.models_processed + s.stats.models_failed + models.length) := by
  constructor
  · intro cfg scrape download saveOk s m
    obtain ⟨hc1, hc2, hc3, hc4⟩ := process_char cfg scrape download saveOk s m
    cases hi : itemSucceeds cfg scrape download saveOk m with
    | false =>
      rw [hi] at hc2 hc3 hc4
      simp only [Bool.false_eq_true, if_false] at hc2 hc3 hc4
      refine ⟨by omega, ?_, ?_, by rw [hc1, hi], hc4⟩
      · constructor
        · intro h; omega
        · intro h; cases h
      · constructor
        · intro _; rfl
        · intro _; omega
    | true =>
      rw [hi] at hc2 hc3 hc4
      simp only [if_true] at hc2 hc3 hc4
      refine ⟨by omega, ?_, ?_, by rw [hc1, hi], hc4⟩
      · constructor
        · intro _; rfl
        · intro _; omega
      · constructor
        · intro h; omega
        · intro h; cases h
  · intro cfg scrape download saveOk s models
    exact run_total cfg scrape download saveOk models s

theorem run_append (cfg : ValidationConfig)
    (scrape : ModelData → Except Unit ModelData)
    (download : ModelData → Except (Nat × Nat) (ModelData × Nat × Nat))
    (saveOk : ModelData → Bool) :
    ∀ (l1 l2 : List ModelData) (s : RunState),
      run_parallel_processing cfg scrape download saveOk s (l1 ++ l2) =
        ((run_parallel_processing cfg scrape download saveOk s l1).1 ++
            (run_parallel_processing cfg scrape download saveOk
              (run_parallel_processing cfg scrape download saveOk s l1).2 l2).1,
          (run_parallel_processing cfg scrape download saveOk
            (run_parallel_processing cfg scrape download saveOk s l1).2 l2).2) := by
  intro l1
  induction l1 with
  | nil =>
    intro l2 s
    simp [run_parallel_processing]
  | cons m tl ih =>
    intro l2 s
    simp only [List.cons_append, run_parallel_processing, List.append_eq]
    rw [ih]
    cases hx : (process_single_model cfg scrape download saveOk s m).1 <;> simp [hx]

/-- C1: in a run where every item before and after a single bad item
succeeds end to end and the bad item is the one whose detail scrape
stage raises, the failed counter increases by exactly one, every other
item is still processed (the processed counter increases by n minus
one), exactly n minus one records are appended to the log, and the
returned result list has n minus one items, so the failure aborts
nothing. -/
theorem claim_C1_single_failure_resilience (cfg : ValidationConfig)
    (scrape : ModelData → Except Unit ModelData)
    (download : ModelData → Except (Nat × Nat) (ModelData × Nat × Nat))
    (saveOk : ModelData → Bool) (s : RunState) (l1 l2 : List ModelData)
    (bad : ModelData)
    (h1 : ∀ x ∈ l1, itemSucceeds cfg scrape download saveOk x = true)
    (h2 : ∀ x ∈ l2, itemSucceeds cfg scrape download saveOk x = true)
    (hbad : scrape bad = Except.error ()) :
    (run_parallel_processing cfg scrape download saveOk s
        (l1 ++ bad :: l2)).2.stats.models_failed = s.stats.models_failed + 1 ∧
    (run_parallel_processing cfg scrape download saveOk s
        (l1 ++ bad :: l2)).2.stats.models_processed =
      s.stats.models_processed + (l1.length + l2.length) ∧
    (run_parallel_processing cfg scrape download saveOk s
        (l1 ++ bad :: l2)).2.log.length = s.log.length + (l1.length + l2.length) ∧
    (run_parallel_processing cfg scrape download saveOk s
        (l1 ++ bad :: l2)).1.length = l1.length + l2.length := by
  have hfail : itemSucceeds cfg scrape download saveOk bad = false := by
    simp [itemSucceeds, hbad]
  obtain ⟨g1p, g1f, g1l, g1r⟩ := run_good_prefix cfg scrape download saveOk l1 s h1
  obtain ⟨hc1, hc2, hc3, hc4⟩ := process_char cfg scrape download saveOk
    (run_parallel_processing cfg scrape download saveOk s l1).2 bad
  rw [hfail] at hc2 hc3 hc4
  simp only [Bool.false_eq_true, if_false] at hc2 hc3 hc4
  obtain ⟨g2p, g2f, g2l, g2r⟩ := run_good_prefix cfg scrape download saveOk l2
    (process_single_model cfg scrape download saveOk
      (run_parallel_processing cfg scrape download saveOk s l1).2 bad).2 h2
  rw [run_append cfg scrape download saveOk l1 (bad :: l2) s]
  have hnone : (process_single_model cfg scrape download saveOk
      (run_parallel_processing cfg scrape download saveOk s l1).2 bad).1 = none := by
    cases hx : (process_single_model cfg scrape download saveOk
        (run_parallel_processing cfg scrape download saveOk s l1).2 bad).1 with
    | none => rfl
    | some x =>
      rw [hx, hfail] at hc1
      cases hc1
  rw [show run_parallel_processing cfg scrape download saveOk
      (run_parallel_processing cfg scrape download saveOk s l1).2 (bad :: l2) =
      (match (process_single_model cfg scrape download saveOk
          (run_parallel_processing cfg scrape download saveOk s l1).2 bad).1 with
        | some x => x :: (run_parallel_processing cfg scrape download saveOk
            (process_single_model cfg scrape download saveOk
              (run_parallel_processing cfg scrape download saveOk s l1).2 bad).2 l2).1
        | none => (run_parallel_processing cfg scrape download saveOk
            (process_single_model cfg scrape download saveOk
              (run_parallel_processing cfg scrape download saveOk s l1).2 bad).2 l2).1,
        (run_parallel_processing cfg scrape download saveOk
          (process_single_model cfg scrape download saveOk
            (run_parallel_processing cfg scrape download saveOk s l1).2 bad).2 l2).2)
      from rfl, hnone]
  simp only [List.length_append]
  exact ⟨by omega, by omega, by omega, by omega⟩

/-- Witness for claim C1: a concrete three item run in which exactly
the second item raises at the scrape stage reports one failure, two
processed items and two appended records. -/
theorem claim_C1_witness :
    (run_parallel_processing ⟨["ima", "mai", "dev"], 1, []⟩
        (fun m => if m.name = "B" then Except.error () else Except.ok m)
        (fun m => Except.ok (m, 0, 0)) (fun _ => true) ⟨⟨0, 0, 0, 0, 0⟩, []⟩
        ([⟨"1", "A", "dev", "uA", "", [], ["i.jpg"]⟩] ++
          ⟨"2", "B", "dev", "uB", "", [], ["i.jpg"]⟩ ::
            [⟨"3", "C", "dev", "uC", "", [], ["i.jpg"]⟩])).2.stats.models_failed = 0 + 1 ∧
    (run_parallel_processing ⟨["ima", "mai", "dev"], 1, []⟩
        (fun m => if m.name = "B" then Except.error () else Except.ok m)
        (fun m => Except.ok (m, 0, 0)) (fun _ => true) ⟨⟨0, 0, 0, 0, 0⟩, []⟩
        ([⟨"1", "A", "dev", "uA", "", [], ["i.jpg"]⟩] ++
          ⟨"2", "B", "dev", "uB", "", [], ["i.jpg"]⟩ ::
            [⟨"3", "C", "dev", "uC", "", [], ["i.jpg"]⟩])).2.stats.models_processed =
      0 + (1 + 1) ∧
    (run_parallel_processing ⟨["ima", "mai", "dev"], 1, []⟩
        (fun m => if m.name = "B" then Except.error () else Except.ok m)
        (fun m => Except.ok (m, 0, 0)) (fun _ => true) ⟨⟨0, 0, 0, 0, 0⟩, []⟩
        ([⟨"1", "A", "dev", "uA", "", [], ["i.jpg"]⟩] ++
          ⟨"2", "B", "dev", "uB", "", [], ["i.jpg"]⟩ ::
            [⟨"3", "C", "dev", "uC", "", [], ["i.jpg"]⟩])).2.log.length = 0 + (1 + 1) ∧
    (run_parallel_processing ⟨["ima", "mai", "dev"], 1, []⟩
        (fun m => if m.name = "B" then Except.error () else Except.ok m)
        (fun m => Except.ok (m, 0, 0)) (fun _ => true) ⟨⟨0, 0, 0, 0, 0⟩, []⟩
        ([⟨"1", "A", "dev", "uA", "", [], ["i.jpg"]⟩] ++
          ⟨"2", "B", "dev", "uB", "", [], ["i.jpg"]⟩ ::
            [⟨"3", "C", "dev", "uC", "", [], ["i.jpg"]⟩])).1.length = 1 + 1 :=
  claim_C1_single_failure_resilience ⟨["ima", "mai", "dev"], 1, []⟩
    (fun m => if m.name = "B" then Except.error () else Except.ok m)
    (fun m => Except.ok (m, 0, 0)) (fun _ => true) ⟨⟨0, 0, 0, 0, 0⟩, []⟩
    [⟨"1", "A", "dev", "uA", "", [], ["i.jpg"]⟩]
    [⟨"3", "C", "dev", "uC", "", [], ["i.jpg"]⟩]
    ⟨"2", "B", "dev", "uB", "", [], ["i.jpg"]⟩
    (by decide) (by decide) rfl
